import Mathlib

/-!
Verification of the activity-analytics core of a year-in-review report
generator.  The analyzers under study are pure transformations from arrays
of platform event / merge-request / issue records to metrics objects:
`analyzeEvents`, `analyzeMergeRequests`, `analyzeIssues`,
`analyzeTimePatterns`, `getWeekNumber`, `analyzeStreaks`,
`analyzeGitHubEvents` and `analyzeGitHubTimePatterns`.

JavaScript objects used as counters (`obj[k] = (obj[k] || 0) + 1`) are
modelled as association lists preserving insertion order; `Map` is also an
association list.  JavaScript `Date` values are modelled by their local
calendar fields together with the proleptic-Gregorian day arithmetic that
ECMAScript specifies (implemented below with the standard civil-calendar
conversions).  An unparseable timestamp (JS `Invalid Date`, whose field
getters all return `NaN`) is modelled by a dedicated constructor, and the
`"NaN"` object key that results from indexing with `NaN` is modelled by
`Option.none`.  Division on `Int` in this file is Euclidean division,
which coincides with mathematical floor division for the positive literal
divisors used here.
-/

/-! ### Association-list counters (JS objects used as `key -> count` maps) -/

/-- `obj[k] = (obj[k] || 0) + 1` on a JS object: increment the first entry
with key `k`, or append a fresh entry `(k, 1)` if the key is absent. -/
def bump {κ : Type} [DecidableEq κ] : List (κ × Nat) → κ → List (κ × Nat)
  | [], k => [(k, 1)]
  | (k₀, v) :: rest, k =>
      if k₀ = k then (k₀, v + 1) :: rest else (k₀, v) :: bump rest k

/-- Reading `obj[k] || 0` from a JS counter object. -/
def getCount {κ : Type} [DecidableEq κ] : List (κ × Nat) → κ → Nat
  | [], _ => 0
  | (k₀, v) :: rest, k => if k₀ = k then v else getCount rest k

/-- Sum of all counter values of a JS counter object. -/
def totalCount {κ : Type} (l : List (κ × Nat)) : Nat :=
  (l.map Prod.snd).sum

/-! ### Civil-calendar arithmetic (the day arithmetic of JS `Date`) -/

/-- Days from the Unix epoch (1970-01-01) to the proleptic-Gregorian civil
date `y-m-d` (month `1..12`), as ECMAScript `Date.UTC(y, m-1, d) / 86400000`
computes it.  Standard civil-from-days conversion; all divisions are by
positive literals, where Euclidean division equals floor division. -/
def daysFromCivil (y m d : Int) : Int :=
  let y1 := if m ≤ 2 then y - 1 else y
  let era := y1 / 400
  let yoe := y1 - era * 400
  let doy := (153 * (if 2 < m then m - 3 else m + 9) + 2) / 5 + d - 1
  let doe := yoe * 365 + yoe / 4 - yoe / 100 + doy
  era * 146097 + doe - 719468

/-- A civil calendar date, as produced by formatting a JS `Date`
(`getFullYear`, `getMonth() + 1`, `getDate`). -/
structure CivilDate where
  year : Int
  month : Int
  day : Int
deriving DecidableEq, Repr

/-- Days since the Unix epoch of a civil date. -/
def epochDays (d : CivilDate) : Int :=
  daysFromCivil d.year d.month d.day

/-- Offset search for `yearFromDays`: the largest year offset `j` within a
400-year Gregorian era whose January 1 does not lie after day `off` of the
era (era day `0` is January 1 of year `0` of the era, and
`daysFromCivil 0 1 1 = -719528`). -/
def yearSearch (off : Int) : Nat → Nat
  | 0 => 0
  | j + 1 =>
      if daysFromCivil (j + 1 : Nat) 1 1 + 719528 ≤ off then j + 1
      else yearSearch off j

/-- `date.getUTCFullYear()` determined by the epoch day count: the unique
year whose January 1 is the last one not after the given day.  The
Gregorian calendar repeats every 400 years = 146097 days, so the day is
first reduced to its 400-year era and the year offset is found inside
it. -/
def yearFromDays (z : Int) : Int :=
  let k := (z + 719528) / 146097
  let off := z + 719528 - 146097 * k
  400 * k + yearSearch off 399

/-- JS `date.getDay()` / `getUTCDay()` determined by the epoch day count:
`0` = Sunday … `6` = Saturday (the epoch day 0 was a Thursday, day `4`). -/
def jsDayOfWeek (e : Int) : Int :=
  (e + 4) % 7

/-- `Math.ceil(x / 7)` for an integer numerator. -/
def ceilDiv7 (x : Int) : Int :=
  -(-x / 7)

/-- The epoch day of the Thursday of the week containing epoch day `e`,
exactly as `getWeekNumber` computes it: `dayNum = d.getUTCDay() || 7;
d.setUTCDate(d.getUTCDate() + 4 - dayNum)`. -/
def thursdayOfWeek (e : Int) : Int :=
  let w := jsDayOfWeek e
  e + 4 - (if w = 0 then 7 else w)

/-- `getWeekNumber(d)` from the source: normalize to UTC midnight, shift to
the Thursday of the week, then `Math.ceil(((d - yearStart)/86400000 + 1)/7)`
where `yearStart` is January 1 of the shifted date's year. -/
def getWeekNumber (dt : CivilDate) : Int :=
  let e2 := thursdayOfWeek (epochDays dt)
  let yearStart := daysFromCivil (yearFromDays e2) 1 1
  ceilDiv7 (e2 - yearStart + 1)

/-! ### Strings, timestamps and month names -/

/-- `needle` occurs as a contiguous sublist of the second argument
(JS `String.prototype.includes`, on character lists). -/
def containsList (needle : List Char) : List Char → Bool
  | [] => needle.isEmpty
  | c :: t => needle.isPrefixOf (c :: t) || containsList needle t

/-- JS `s.includes(sub)`. -/
def strIncludes (s sub : String) : Bool :=
  containsList sub.toList s.toList

/-- JS `s.toLowerCase()` (ASCII case mapping suffices for the names used). -/
def strLower (s : String) : String :=
  ⟨s.toList.map Char.toLower⟩

/-- The allow-list test of `analyzeEvents`:
`projectName.toLowerCase().includes(allowed.toLowerCase()) ||
 allowed.toLowerCase().includes(projectName.toLowerCase())`
for some entry of the configured list. -/
def isAllowedName (allowed : List String) (name : String) : Bool :=
  allowed.any fun a =>
    strIncludes (strLower name) (strLower a) ||
    strIncludes (strLower a) (strLower name)

/-- The local calendar fields of a parseable JS timestamp:
`getFullYear`, `getMonth() + 1` (so `month` is `1..12`), `getDate`,
`getHours`. -/
structure LocalDateTime where
  year : Int
  month : Int
  day : Int
  hour : Int
deriving DecidableEq, Repr

/-- A JS timestamp field as `new Date(x)` sees it: absent (a falsy value,
giving `Invalid Date`), present but unparseable (also `Invalid Date`), or
parseable with the given local calendar fields. -/
inductive JSTimestamp where
  | absent
  | invalid
  | valid (dt : LocalDateTime)
deriving DecidableEq, Repr

/-- `date.toLocaleString('default', { month: 'long' })`: the ambient
locale's full month name for a parseable date, and the string
`"Invalid Date"` for an `Invalid Date`.  The ambient locale is modelled as
the function `locale` from month numbers (`1..12`) to names. -/
def jsMonthKey (locale : Int → String) : JSTimestamp → String
  | .valid dt => locale dt.month
  | _ => "Invalid Date"

/-- JS `date.getHours()` as an object key: `NaN` (modelled `none`) for an
`Invalid Date`. -/
def jsHourKey : JSTimestamp → Option Int
  | .valid dt => some dt.hour
  | _ => none

/-- JS `date.getDay()` as an object key: `NaN` (modelled `none`) for an
`Invalid Date`. -/
def jsDayKey : JSTimestamp → Option Int
  | .valid dt => some (jsDayOfWeek (daysFromCivil dt.year dt.month dt.day))
  | _ => none

/-- `getWeekNumber(date)` as an object key: `NaN` (modelled `none`) for an
`Invalid Date`. -/
def jsWeekKey : JSTimestamp → Option Int
  | .valid dt => some (getWeekNumber ⟨dt.year, dt.month, dt.day⟩)
  | _ => none

/-- The English month table used by the test suite and by any `'default'`
locale resolving to English. -/
def englishMonthName (m : Int) : String :=
  if m = 1 then "January" else if m = 2 then "February"
  else if m = 3 then "March" else if m = 4 then "April"
  else if m = 5 then "May" else if m = 6 then "June"
  else if m = 7 then "July" else if m = 8 then "August"
  else if m = 9 then "September" else if m = 10 then "October"
  else if m = 11 then "November" else if m = 12 then "December"
  else ""

/-- A French month table: what the same `'default'`-locale call produces
when the ambient environment locale is French. -/
def frenchMonthName (m : Int) : String :=
  if m = 1 then "janvier" else if m = 2 then "février"
  else if m = 3 then "mars" else if m = 4 then "avril"
  else if m = 5 then "mai" else if m = 6 then "juin"
  else if m = 7 then "juillet" else if m = 8 then "août"
  else if m = 9 then "septembre" else if m = 10 then "octobre"
  else if m = 11 then "novembre" else if m = 12 then "décembre"
  else ""

/-! ### Streak analyzer -/

/-- Output of `analyzeStreaks`. -/
structure StreakMetrics where
  maxStreak : Nat
  maxStreakStart : Option CivilDate
  maxStreakEnd : Option CivilDate
  totalActiveDays : Nat
deriving DecidableEq, Repr

/-- The mutable locals of the scan loop of `analyzeStreaks`. -/
structure StreakScanState where
  currentStreak : Nat
  maxStreak : Nat
  currentStreakStart : Option CivilDate
  maxStreakStart : Option CivilDate
  maxStreakEnd : Option CivilDate
deriving DecidableEq, Repr

/-- Lexicographic order on formatted `"YYYY-MM-DD"` date strings
(equal to componentwise lexicographic order on the date fields for the
zero-padded canonical dates the analyzer formats). -/
def dateLE (a b : CivilDate) : Prop :=
  a.year < b.year ∨ (a.year = b.year ∧
    (a.month < b.month ∨ (a.month = b.month ∧ a.day ≤ b.day)))

instance : DecidableRel dateLE := fun a b => by
  unfold dateLE; infer_instance

/-- The scan loop of `analyzeStreaks` over the sorted active dates.  The
first argument is `activeDates[i-1]` (`none` on the first iteration).  The
day gap is `Math.ceil((currDate - prevDate) / 86400000)`, which is exact
for the date-only strings being reparsed; a gap of `1` extends the current
run, a gap `> 1` closes it (recording a new maximum if it is one), and any
other gap leaves the state unchanged (neither branch of the source
fires). -/
def streakScan : Option CivilDate → StreakScanState → List CivilDate → StreakScanState
  | _, st, [] => st
  | none, st, d :: rest =>
      streakScan (some d)
        { st with currentStreak := 1, currentStreakStart := some d } rest
  | some p, st, d :: rest =>
      let diffDays := epochDays d - epochDays p
      if diffDays = 1 then
        streakScan (some d) { st with currentStreak := st.currentStreak + 1 } rest
      else if 1 < diffDays then
        if st.maxStreak < st.currentStreak then
          streakScan (some d)
            { currentStreak := 1, maxStreak := st.currentStreak,
              currentStreakStart := some d,
              maxStreakStart := st.currentStreakStart,
              maxStreakEnd := some p } rest
        else
          streakScan (some d)
            { st with currentStreak := 1, currentStreakStart := some d } rest
      else
        streakScan (some d) st rest

/-- `analyzeStreaks(events)` from the source, on the local calendar dates
derived from the events (`events` is the list of per-event formatted local
dates; duplicate dates collapse through the `eventsByDate` object and the
key set is sorted before scanning). -/
def analyzeStreaks (events : List CivilDate) : StreakMetrics :=
  let activeDates := List.insertionSort dateLE events.dedup
  let st := streakScan none ⟨0, 0, none, none, none⟩ activeDates
  if st.maxStreak < st.currentStreak then
    { maxStreak := st.currentStreak,
      maxStreakStart := st.currentStreakStart,
      maxStreakEnd := activeDates.getLast?,
      totalActiveDays := activeDates.length }
  else
    { maxStreak := st.maxStreak,
      maxStreakStart := st.maxStreakStart,
      maxStreakEnd := st.maxStreakEnd,
      totalActiveDays := activeDates.length }

/-! ### Merge-request and issue analyzers -/

/-- A GitLab merge-request record as read by `analyzeMergeRequests`:
timestamps are milliseconds since the epoch, `none` when the field is
absent (falsy). -/
structure MergeRequest where
  state : String
  created_at : Option Int
  merged_at : Option Int
  project_id : Int
deriving DecidableEq, Repr

/-- Output of `analyzeMergeRequests`.  `averageTimeToMerge` is a JS number
computed by exact division, modelled as a rational. -/
structure MRMetrics where
  totalCreated : Nat
  totalAssigned : Nat
  mergedCount : Nat
  openedCount : Nat
  closedCount : Nat
  averageTimeToMerge : Rat
  totalTimeToMerge : Int
  projectsWithMRs : List Int
deriving DecidableEq, Repr

/-- `Set.prototype.add` followed by `Array.from`: a set kept as an
insertion-ordered duplicate-free list. -/
def addUnique (l : List Int) (x : Int) : List Int :=
  if x ∈ l then l else l ++ [x]

/-- The `mrs.forEach` body of `analyzeMergeRequests`. -/
def mrStep (m : MRMetrics) (mr : MergeRequest) : MRMetrics :=
  let m := { m with projectsWithMRs := addUnique m.projectsWithMRs mr.project_id }
  if mr.state = "merged" then
    let m := { m with mergedCount := m.mergedCount + 1 }
    match mr.merged_at, mr.created_at with
    | some merged, some created =>
        { m with totalTimeToMerge := m.totalTimeToMerge + (merged - created) }
    | _, _ => m
  else if mr.state = "opened" then { m with openedCount := m.openedCount + 1 }
  else if mr.state = "closed" then { m with closedCount := m.closedCount + 1 }
  else m

/-- `analyzeMergeRequests(mrs)` from the source; after the loop,
`averageTimeToMerge = totalTimeToMerge / mergedCount` whenever
`mergedCount > 0`. -/
def analyzeMergeRequests (mrs : List MergeRequest) : MRMetrics :=
  let m := mrs.foldl mrStep ⟨mrs.length, 0, 0, 0, 0, 0, 0, []⟩
  if 0 < m.mergedCount then
    { m with averageTimeToMerge := (m.totalTimeToMerge : Rat) / (m.mergedCount : Rat) }
  else m

/-- A GitLab issue record as read by `analyzeIssues`. -/
structure Issue where
  state : String
  project_id : Int
deriving DecidableEq, Repr

/-- Output of `analyzeIssues`. -/
structure IssueMetrics where
  totalCreated : Nat
  totalAssigned : Nat
  closedCount : Nat
  openedCount : Nat
  projectsWithIssues : List Int
deriving DecidableEq, Repr

/-- The `issues.forEach` body of `analyzeIssues`: a `closed` issue bumps
`closedCount` and every other issue bumps `openedCount`. -/
def issueStep (m : IssueMetrics) (i : Issue) : IssueMetrics :=
  let m := { m with projectsWithIssues := addUnique m.projectsWithIssues i.project_id }
  if i.state = "closed" then { m with closedCount := m.closedCount + 1 }
  else { m with openedCount := m.openedCount + 1 }

/-- `analyzeIssues(issues)` from the source. -/
def analyzeIssues (issues : List Issue) : IssueMetrics :=
  issues.foldl issueStep ⟨issues.length, 0, 0, 0, []⟩

/-! ### GitLab event aggregator -/

/-- A GitLab activity event as read by `analyzeEvents`,
`analyzeTimePatterns` and `analyzeStreaks`.  `project_id` is `none` when
the field is absent (a present id of `0` is also falsy in JS and is
handled explicitly in the steps below). -/
structure GLEvent where
  action_name : String
  project_id : Option Int
  created_at : JSTimestamp
deriving DecidableEq, Repr

/-- A per-project contribution record of `analyzeEvents`. -/
structure Contribution where
  total : Nat
  pushEvents : Nat
  otherEvents : Nat
deriving DecidableEq, Repr

/-- Incrementing a `projectContributions[projectName]` record: create it
zeroed if absent, bump `total`, then bump `pushEvents` or `otherEvents`
according to whether the event type contains `"push"`. -/
def bumpContrib : List (String × Contribution) → String → Bool → List (String × Contribution)
  | [], k, p => [(k, ⟨1, if p then 1 else 0, if p then 0 else 1⟩)]
  | (k₀, c) :: rest, k, p =>
      if k₀ = k then
        (k₀, ⟨c.total + 1,
              c.pushEvents + (if p then 1 else 0),
              c.otherEvents + (if p then 0 else 1)⟩) :: rest
      else (k₀, c) :: bumpContrib rest k p

/-- Reading `projectContributions[k]`, zeroed when absent. -/
def getContrib : List (String × Contribution) → String → Contribution
  | [], _ => ⟨0, 0, 0⟩
  | (k₀, c) :: rest, k => if k₀ = k then c else getContrib rest k

/-- `Map.prototype.get` on the project-name memoization map. -/
def lookupName : List (Int × String) → Int → Option String
  | [], _ => none
  | (k₀, n) :: rest, k => if k₀ = k then some n else lookupName rest k

/-- The loop state of `analyzeEvents`: the counter objects under
construction, the `projectNamesMap` memoization map, and (instrumentation)
the list of project ids passed to `getProjectNameById`, in call order. -/
structure EvState where
  eventTypeCounts : List (String × Nat)
  projectActivity : List (String × Nat)
  monthlyActivity : List (String × Nat)
  projectContributions : List (String × Contribution)
  projectNamesMap : List (Int × String)
  resolverCalls : List Int
deriving DecidableEq, Repr

/-- The loop body of `analyzeEvents` for one event.  `resolver` is the
external `getProjectNameById` lookup; `locale` is the ambient locale month
table used by `toLocaleString('default', { month: 'long' })`.  Event type
is counted first; the project name is then resolved through the
memoization map; the allow-list filter may `continue`, skipping the
project, contribution and monthly counters. -/
def evStep (allowed : List String) (resolver : Int → String) (locale : Int → String)
    (st : EvState) (e : GLEvent) : EvState :=
  let st := { st with eventTypeCounts := bump st.eventTypeCounts e.action_name }
  let r : String × List (Int × String) × List Int :=
    match e.project_id with
    | some pid =>
        if pid = 0 then ("Unknown Project", st.projectNamesMap, st.resolverCalls)
        else
          match lookupName st.projectNamesMap pid with
          | some n => (n, st.projectNamesMap, st.resolverCalls)
          | none =>
              (resolver pid, st.projectNamesMap ++ [(pid, resolver pid)],
               st.resolverCalls ++ [pid])
    | none => ("Unknown Project", st.projectNamesMap, st.resolverCalls)
  let projectName := r.1
  let st := { st with projectNamesMap := r.2.1, resolverCalls := r.2.2 }
  if allowed ≠ [] ∧ ¬ isAllowedName allowed projectName then st
  else
    { st with
      projectActivity := bump st.projectActivity projectName,
      projectContributions :=
        bumpContrib st.projectContributions projectName
          (strIncludes e.action_name "push"),
      monthlyActivity :=
        bump st.monthlyActivity (jsMonthKey locale e.created_at) }

/-- The full `for (const event of events)` loop of `analyzeEvents`. -/
def analyzeEventsRun (allowed : List String) (resolver : Int → String)
    (locale : Int → String) (events : List GLEvent) : EvState :=
  events.foldl (evStep allowed resolver locale) ⟨[], [], [], [], [], []⟩

/-- Descending-count comparison used by the
`.sort(([,a],[,b]) => b - a)` post-processing steps. -/
def countGE (a b : String × Nat) : Prop :=
  b.2 ≤ a.2

instance : DecidableRel countGE := fun a b => Nat.decLe b.2 a.2

/-- Output of `analyzeEvents`. -/
structure EventMetrics where
  totalEvents : Nat
  eventTypeCounts : List (String × Nat)
  projectActivity : List (String × Nat)
  monthlyActivity : List (String × Nat)
  topProjects : List (String × Nat)
  mostActiveMonth : String
  projectContributions : List (String × Contribution)
deriving DecidableEq, Repr

/-- `analyzeEvents(events)` from the source: run the loop, then sort
project counts descending and take the first five, and take the
highest-count month name (empty string when there are none). -/
def analyzeEvents (allowed : List String) (resolver : Int → String)
    (locale : Int → String) (events : List GLEvent) : EventMetrics :=
  let st := analyzeEventsRun allowed resolver locale events
  { totalEvents := events.length,
    eventTypeCounts := st.eventTypeCounts,
    projectActivity := st.projectActivity,
    monthlyActivity := st.monthlyActivity,
    topProjects := (List.insertionSort countGE st.projectActivity).take 5,
    mostActiveMonth :=
      match (List.insertionSort countGE st.monthlyActivity).head? with
      | some kv => kv.1
      | none => "",
    projectContributions := st.projectContributions }

/-! ### Time-pattern analyzers -/

/-- Output of `analyzeTimePatterns` / `analyzeGitHubTimePatterns`.  The
hour / day / week keys are `some` of the computed number for a parseable
timestamp, and `none` models the `"NaN"` object key produced by an
`Invalid Date`. -/
structure TimeMetrics where
  hourlyActivity : List (Option Int × Nat)
  dailyActivity : List (Option Int × Nat)
  weeklyActivity : List (Option Int × Nat)
  monthlyActivity : List (String × Nat)
deriving DecidableEq, Repr

/-- The `events.forEach` body of `analyzeTimePatterns`: every event bumps
one key in each of the four mappings. -/
def tpStep (locale : Int → String) (m : TimeMetrics) (e : GLEvent) : TimeMetrics :=
  { hourlyActivity := bump m.hourlyActivity (jsHourKey e.created_at),
    dailyActivity := bump m.dailyActivity (jsDayKey e.created_at),
    weeklyActivity := bump m.weeklyActivity (jsWeekKey e.created_at),
    monthlyActivity := bump m.monthlyActivity (jsMonthKey locale e.created_at) }

/-- `analyzeTimePatterns(events)` from the source. -/
def analyzeTimePatterns (locale : Int → String) (events : List GLEvent) : TimeMetrics :=
  events.foldl (tpStep locale) ⟨[], [], [], []⟩

/-! ### GitHub analyzers -/

/-- A GitHub activity event as read by `analyzeGitHubEvents` and
`analyzeGitHubTimePatterns`.  `repo` is `event.repo.name` when
`event.repo` is present, `none` otherwise. -/
structure GHEvent where
  type : String
  repo : Option String
  created_at : JSTimestamp
deriving DecidableEq, Repr

/-- The loop state of `analyzeGitHubEvents`. -/
structure GHState where
  eventTypeCounts : List (String × Nat)
  repoActivity : List (String × Nat)
  monthlyActivity : List (String × Nat)
  contributions : List (String × Contribution)
deriving DecidableEq, Repr

/-- The `events.forEach` body of `analyzeGitHubEvents`: count the event
type; when `event.repo && event.repo.name` is truthy, bump the repository
counters (push means `type === 'PushEvent'` exactly); when
`event.created_at` is truthy, bump the month key. -/
def ghStep (locale : Int → String) (st : GHState) (e : GHEvent) : GHState :=
  let st := { st with eventTypeCounts := bump st.eventTypeCounts e.type }
  let st :=
    match e.repo with
    | some name =>
        if name = "" then st
        else
          { st with
            repoActivity := bump st.repoActivity name,
            contributions := bumpContrib st.contributions name (e.type = "PushEvent") }
    | none => st
  match e.created_at with
  | .absent => st
  | ts => { st with monthlyActivity := bump st.monthlyActivity (jsMonthKey locale ts) }

/-- Output of `analyzeGitHubEvents`. -/
structure GHMetrics where
  totalEvents : Nat
  totalCommits : Nat
  eventTypeCounts : List (String × Nat)
  repoActivity : List (String × Nat)
  monthlyActivity : List (String × Nat)
  topRepos : List (String × Nat)
  mostActiveMonth : String
  contributions : List (String × Contribution)
deriving DecidableEq, Repr

/-- `analyzeGitHubEvents(events, commits)` from the source (the commits
array is only measured for its length). -/
def analyzeGitHubEvents (locale : Int → String) (events : List GHEvent)
    (commitCount : Nat) : GHMetrics :=
  let st := events.foldl (ghStep locale) ⟨[], [], [], []⟩
  { totalEvents := events.length,
    totalCommits := commitCount,
    eventTypeCounts := st.eventTypeCounts,
    repoActivity := st.repoActivity,
    monthlyActivity := st.monthlyActivity,
    topRepos := (List.insertionSort countGE st.repoActivity).take 5,
    mostActiveMonth :=
      match (List.insertionSort countGE st.monthlyActivity).head? with
      | some kv => kv.1
      | none => "",
    contributions := st.contributions }

/-- The `events.forEach` body of `analyzeGitHubTimePatterns`: identical to
`tpStep` except that an event with a falsy `created_at` is skipped
entirely (`if (event.created_at)`). -/
def ghTpStep (locale : Int → String) (m : TimeMetrics) (e : GHEvent) : TimeMetrics :=
  match e.created_at with
  | .absent => m
  | ts =>
      { hourlyActivity := bump m.hourlyActivity (jsHourKey ts),
        dailyActivity := bump m.dailyActivity (jsDayKey ts),
        weeklyActivity := bump m.weeklyActivity (jsWeekKey ts),
        monthlyActivity := bump m.monthlyActivity (jsMonthKey locale ts) }

/-- `analyzeGitHubTimePatterns(events)` from the source. -/
def analyzeGitHubTimePatterns (locale : Int → String) (events : List GHEvent) : TimeMetrics :=
  events.foldl (ghTpStep locale) ⟨[], [], [], []⟩

/-! ### Reference (spec-side) list functions used to state the claims -/

/-- The resolved display name of an event's project: the resolver's answer
for a truthy `project_id`, `"Unknown Project"` otherwise.  The memoization
map of `analyzeEvents` never changes this value because the map only ever
stores the resolver's own answers. -/
def resolveName (resolver : Int → String) (e : GLEvent) : String :=
  match e.project_id with
  | some pid => if pid = 0 then "Unknown Project" else resolver pid
  | none => "Unknown Project"

/-- Whether `analyzeEvents` retains an event past the allow-list filter. -/
def retainedEv (allowed : List String) (resolver : Int → String) (e : GLEvent) : Bool :=
  decide (allowed = []) || isAllowedName allowed (resolveName resolver e)

/-- The repository key of a GitHub event: `some name` when
`event.repo && event.repo.name` is truthy, `none` otherwise. -/
def ghRepoName (e : GHEvent) : Option String :=
  match e.repo with
  | some n => if n = "" then none else some n
  | none => none

/-- Sum of `merged_at - created_at` over the merged items carrying both
timestamps — the durations that actually contribute to
`totalTimeToMerge`. -/
def measuredMergeTime : List MergeRequest → Int
  | [] => 0
  | mr :: rest =>
      (if mr.state = "merged" then
        match mr.merged_at, mr.created_at with
        | some merged, some created => merged - created
        | _, _ => 0
      else 0) + measuredMergeTime rest

/-! ### Counter-map lemmas -/

theorem getCount_bump {κ : Type} [DecidableEq κ] (l : List (κ × Nat)) (k k₁ : κ) :
    getCount (bump l k) k₁ = getCount l k₁ + (if k = k₁ then 1 else 0) := by
  induction l with
  | nil => simp only [bump, getCount]; split_ifs with h <;> simp_all
  | cons a rest ih =>
      obtain ⟨k₀, v⟩ := a
      by_cases h : k₀ = k
      · subst h
        simp only [bump, if_pos rfl, getCount]
        by_cases h₁ : k₀ = k₁ <;> simp_all
      · simp only [bump, if_neg h, getCount]
        by_cases h₁ : k₀ = k₁
        · have h₂ : ¬ k = k₁ := fun he => h (he ▸ h₁)
          simp [h₁, h₂]
        · simp [h₁, ih]

theorem totalCount_bump {κ : Type} [DecidableEq κ] (l : List (κ × Nat)) (k : κ) :
    totalCount (bump l k) = totalCount l + 1 := by
  induction l with
  | nil => simp [bump, totalCount]
  | cons a rest ih =>
      obtain ⟨k₀, v⟩ := a
      simp only [bump]
      split_ifs with h <;> simp_all [totalCount] <;> omega

theorem getContrib_bumpContrib (l : List (String × Contribution)) (k k₁ : String) (p : Bool) :
    getContrib (bumpContrib l k p) k₁ =
      if k = k₁ then
        ⟨(getContrib l k₁).total + 1,
         (getContrib l k₁).pushEvents + (if p then 1 else 0),
         (getContrib l k₁).otherEvents + (if p then 0 else 1)⟩
      else getContrib l k₁ := by
  induction l with
  | nil => simp only [bumpContrib, getContrib]; split_ifs with h <;> simp_all
  | cons a rest ih =>
      obtain ⟨k₀, c⟩ := a
      by_cases h : k₀ = k
      · subst h
        simp only [bumpContrib, if_pos rfl, getContrib]
        by_cases h₁ : k₀ = k₁ <;> simp_all
      · simp only [bumpContrib, if_neg h, getContrib]
        by_cases h₁ : k₀ = k₁
        · have h₂ : ¬ k = k₁ := fun he => h (he ▸ h₁)
          simp [h₁, h₂]
        · simp [h₁, ih]

theorem countP_and_split {α : Type} (l : List α) (p q : α → Bool) :
    l.countP (fun a => p a && q a) + l.countP (fun a => p a && !q a) = l.countP p := by
  induction l with
  | nil => simp
  | cons a rest ih =>
      simp only [List.countP_cons]
      cases hp : p a <;> cases hq : q a <;> simp_all <;> omega

/-! ### Streak analyzer lemmas -/

theorem streakScan_bound (l : List CivilDate) :
    ∀ (p : Option CivilDate) (st : StreakScanState),
      (streakScan p st l).currentStreak ≤ st.currentStreak + l.length ∧
      (streakScan p st l).maxStreak ≤ max st.maxStreak (st.currentStreak + l.length) := by
  induction l with
  | nil => intro p st; simp [streakScan]
  | cons d rest ih =>
      intro p st
      cases p with
      | none =>
          simp only [streakScan]
          have h := ih (some d) { st with currentStreak := 1, currentStreakStart := some d }
          simp only [List.length_cons]
          constructor
          · exact le_trans h.1 (by simp; omega)
          · refine le_trans h.2 ?_
            simp
            omega
      | some q =>
          simp only [streakScan]
          split_ifs with h1 h2 h3
          · have h := ih (some d) { st with currentStreak := st.currentStreak + 1 }
            simp only [List.length_cons]
            constructor
            · exact le_trans h.1 (by simp; omega)
            · refine le_trans h.2 ?_
              simp
              omega
          · have h := ih (some d)
              { currentStreak := 1, maxStreak := st.currentStreak,
                currentStreakStart := some d,
                maxStreakStart := st.currentStreakStart,
                maxStreakEnd := some q }
            simp only [List.length_cons]
            constructor
            · exact le_trans h.1 (by simp; omega)
            · refine le_trans h.2 ?_
              simp
              omega
          · have h := ih (some d) { st with currentStreak := 1, currentStreakStart := some d }
            simp only [List.length_cons]
            constructor
            · exact le_trans h.1 (by simp; omega)
            · refine le_trans h.2 ?_
              simp
              omega
          · have h := ih (some d) st
            simp only [List.length_cons]
            constructor
            · exact le_trans h.1 (by omega)
            · refine le_trans h.2 ?_
              simp
              omega

theorem dedup_of_all_eq {α : Type} [DecidableEq α] (d : α) (l : List α) :
    l ≠ [] → (∀ x ∈ l, x = d) → l.dedup = [d] := by
  induction l with
  | nil => intro h; exact absurd rfl h
  | cons a t ih =>
      intro _ hall
      have ha : a = d := hall a (List.mem_cons_self a t)
      subst ha
      cases t with
      | nil => simp
      | cons b t2 =>
          have hb : b = a := (hall b (by simp)).trans rfl
          have hmem : a ∈ b :: t2 := hb ▸ List.mem_cons_self b t2
          rw [List.dedup_cons_of_mem hmem]
          exact ih (by simp) fun x hx => hall x (List.mem_cons_of_mem _ hx)

theorem analyzeStreaks_totalActiveDays (events : List CivilDate) :
    (analyzeStreaks events).totalActiveDays = events.dedup.length := by
  simp only [analyzeStreaks]
  have hlen := (List.perm_insertionSort dateLE events.dedup).length_eq
  split_ifs <;> exact hlen

theorem analyzeStreaks_max_le (events : List CivilDate) :
    (analyzeStreaks events).maxStreak ≤ (analyzeStreaks events).totalActiveDays := by
  simp only [analyzeStreaks]
  have h := streakScan_bound (List.insertionSort dateLE events.dedup) none
    ⟨0, 0, none, none, none⟩
  simp only [Nat.zero_add, Nat.zero_max] at h
  have hlen := (List.perm_insertionSort dateLE events.dedup).length_eq
  split_ifs with hc <;> simp <;> omega

theorem analyzeStreaks_single (d : CivilDate) (events : List CivilDate)
    (hne : events ≠ []) (hall : ∀ e ∈ events, e = d) :
    analyzeStreaks events = ⟨1, some d, some d, 1⟩ := by
  have hd : events.dedup = [d] := dedup_of_all_eq d events hne hall
  simp only [analyzeStreaks, hd]
  simp [List.insertionSort, streakScan, List.getLast?]

/-- Claim C1: for every input event list, `analyzeStreaks` reports
`totalActiveDays` equal to the number of distinct local calendar dates of
the events and `maxStreak ≤ totalActiveDays`; the empty input yields
`maxStreak = 0` with `null` streak endpoints, and a non-empty input whose
events all fall on one date `d` yields `maxStreak = 1` with both streak
endpoints equal to `d`. -/
theorem analyzeStreaks_claim_C1 (events : List CivilDate) :
    (analyzeStreaks events).totalActiveDays = events.toFinset.card ∧
    (analyzeStreaks events).maxStreak ≤ (analyzeStreaks events).totalActiveDays ∧
    (events = [] → analyzeStreaks events = ⟨0, none, none, 0⟩) ∧
    (∀ d : CivilDate, events ≠ [] → (∀ e ∈ events, e = d) →
      analyzeStreaks events = ⟨1, some d, some d, 1⟩) := by
  refine ⟨?_, analyzeStreaks_max_le events, fun h => by subst h; rfl,
    fun d hne hall => analyzeStreaks_single d events hne hall⟩
  rw [analyzeStreaks_totalActiveDays, List.card_toFinset]

/-- Witness for C1 at a concrete two-event, one-date input. -/
theorem analyzeStreaks_claim_C1_witness :
    analyzeStreaks [⟨2025, 3, 14⟩, ⟨2025, 3, 14⟩] =
      ⟨1, some ⟨2025, 3, 14⟩, some ⟨2025, 3, 14⟩, 1⟩ :=
  (analyzeStreaks_claim_C1 [⟨2025, 3, 14⟩, ⟨2025, 3, 14⟩]).2.2.2
    ⟨2025, 3, 14⟩ (by decide) (by decide)

/-! ### Calendar lemmas for the week-number bound -/

theorem jan1_shift (y k : Int) :
    daysFromCivil (400 * k + y) 1 1 = daysFromCivil y 1 1 + 146097 * k := by
  simp only [daysFromCivil]
  omega

theorem jan1_succ_le (y : Int) :
    daysFromCivil (y + 1) 1 1 ≤ daysFromCivil y 1 1 + 366 := by
  simp only [daysFromCivil]
  omega

theorem yearSearch_le (off : Int) (h : 0 ≤ off) :
    ∀ j : Nat, daysFromCivil (yearSearch off j : Nat) 1 1 + 719528 ≤ off := by
  intro j
  induction j with
  | zero =>
      simp only [yearSearch]
      push_cast
      have h0 : daysFromCivil 0 1 1 = -719528 := by decide
      omega
  | succ j ih =>
      simp only [yearSearch]
      split
      case isTrue hc => exact_mod_cast hc
      case isFalse hc => exact ih

theorem yearSearch_lt (off : Int) :
    ∀ j : Nat, off < daysFromCivil ((j : Nat) + 1 : Int) 1 1 + 719528 →
      off < daysFromCivil ((yearSearch off j : Nat) + 1 : Int) 1 1 + 719528 := by
  intro j
  induction j with
  | zero => intro h; simpa using h
  | succ j ih =>
      intro h
      simp only [yearSearch]
      split
      case isTrue hc => push_cast; push_cast at h; omega
      case isFalse hc =>
        apply ih
        push_cast at hc ⊢
        omega

/-- The year looked up for an epoch day brackets that day: its January 1
is not after the day, and the day is at most 365 days later. -/
theorem yearFromDays_bound (z : Int) :
    daysFromCivil (yearFromDays z) 1 1 ≤ z ∧
    z ≤ daysFromCivil (yearFromDays z) 1 1 + 365 := by
  have hoff0 : 0 ≤ z + 719528 - 146097 * ((z + 719528) / 146097) := by omega
  have hoff1 : z + 719528 - 146097 * ((z + 719528) / 146097) ≤ 146096 := by omega
  have h1 := yearSearch_le (z + 719528 - 146097 * ((z + 719528) / 146097)) hoff0 399
  have htop : (z + 719528 - 146097 * ((z + 719528) / 146097)) <
      daysFromCivil ((399 : Nat) + 1 : Int) 1 1 + 719528 := by
    have h400 : daysFromCivil 400 1 1 + 719528 = 146097 := by decide
    push_cast
    omega
  have h2 := yearSearch_lt (z + 719528 - 146097 * ((z + 719528) / 146097)) 399 htop
  have h3 := jan1_succ_le
    ((yearSearch (z + 719528 - 146097 * ((z + 719528) / 146097)) 399 : Nat) : Int)
  have h4 := jan1_shift
    ((yearSearch (z + 719528 - 146097 * ((z + 719528) / 146097)) 399 : Nat) : Int)
    ((z + 719528) / 146097)
  simp only [yearFromDays]
  omega

set_option maxRecDepth 8000 in
/-- Claim C6: `getWeekNumber` anchors on the Thursday of the week (the
shifted day is always a Thursday, day `4`), returns a value in `1..53` for
every date, and returns `1` for 2025-01-01 and `2` for 2025-01-07. -/
theorem getWeekNumber_claim_C6 :
    (∀ dt : CivilDate,
      jsDayOfWeek (thursdayOfWeek (epochDays dt)) = 4 ∧
      1 ≤ getWeekNumber dt ∧ getWeekNumber dt ≤ 53) ∧
    getWeekNumber ⟨2025, 1, 1⟩ = 1 ∧ getWeekNumber ⟨2025, 1, 7⟩ = 2 := by
  refine ⟨fun dt => ⟨?_, ?_⟩, by decide, by decide⟩
  · simp only [jsDayOfWeek, thursdayOfWeek]
    omega
  · have h := yearFromDays_bound (thursdayOfWeek (epochDays dt))
    simp only [getWeekNumber, ceilDiv7]
    omega

/-! ### Merge-request / issue analyzer lemmas -/

theorem mem_addUnique (l : List Int) (x y : Int) :
    y ∈ addUnique l x ↔ y ∈ l ∨ y = x := by
  simp only [addUnique]
  split_ifs with h
  · exact ⟨Or.inl, fun hy => hy.elim id fun he => he ▸ h⟩
  · simp

theorem mrStep_fields (m : MRMetrics) (mr : MergeRequest) :
    (mrStep m mr).totalCreated = m.totalCreated ∧
    (mrStep m mr).averageTimeToMerge = m.averageTimeToMerge ∧
    (mrStep m mr).mergedCount = m.mergedCount + (if mr.state = "merged" then 1 else 0) ∧
    (mrStep m mr).openedCount = m.openedCount + (if mr.state = "opened" then 1 else 0) ∧
    (mrStep m mr).closedCount = m.closedCount + (if mr.state = "closed" then 1 else 0) ∧
    (mrStep m mr).totalTimeToMerge = m.totalTimeToMerge +
      (if mr.state = "merged" then
        match mr.merged_at, mr.created_at with
        | some merged, some created => merged - created
        | _, _ => 0
      else 0) ∧
    (mrStep m mr).projectsWithMRs = addUnique m.projectsWithMRs mr.project_id := by
  have hmo : ¬ (("merged" : String) = "opened") := by decide
  have hmc : ¬ (("merged" : String) = "closed") := by decide
  have hoc : ¬ (("opened" : String) = "closed") := by decide
  by_cases h1 : mr.state = "merged"
  · rcases hma : mr.merged_at with _ | merged <;>
      rcases hca : mr.created_at with _ | created <;>
      simp [mrStep, h1, hma, hca, hmo, hmc]
  · by_cases h2 : mr.state = "opened"
    · simp [mrStep, h1, h2, hoc]
    · by_cases h3 : mr.state = "closed" <;> simp [mrStep, h1, h2, h3]

theorem mrFold_spec (l : List MergeRequest) :
    ∀ m₀ : MRMetrics,
      (l.foldl mrStep m₀).totalCreated = m₀.totalCreated ∧
      (l.foldl mrStep m₀).averageTimeToMerge = m₀.averageTimeToMerge ∧
      (l.foldl mrStep m₀).mergedCount =
        m₀.mergedCount + l.countP (fun mr => decide (mr.state = "merged")) ∧
      (l.foldl mrStep m₀).openedCount =
        m₀.openedCount + l.countP (fun mr => decide (mr.state = "opened")) ∧
      (l.foldl mrStep m₀).closedCount =
        m₀.closedCount + l.countP (fun mr => decide (mr.state = "closed")) ∧
      (l.foldl mrStep m₀).totalTimeToMerge = m₀.totalTimeToMerge + measuredMergeTime l ∧
      (∀ x : Int, x ∈ (l.foldl mrStep m₀).projectsWithMRs ↔
        x ∈ m₀.projectsWithMRs ∨ x ∈ l.map MergeRequest.project_id) := by
  induction l with
  | nil => intro m₀; simp [measuredMergeTime]
  | cons mr rest ih =>
      intro m₀
      have hstep := mrStep_fields m₀ mr
      have h := ih (mrStep m₀ mr)
      simp only [List.foldl_cons, List.countP_cons, measuredMergeTime, List.map_cons]
      refine ⟨?_, ?_, ?_, ?_, ?_, ?_, ?_⟩
      · rw [h.1, hstep.1]
      · rw [h.2.1, hstep.2.1]
      · rw [h.2.2.1, hstep.2.2.1]; simp only [decide_eq_true_eq]; omega
      · rw [h.2.2.2.1, hstep.2.2.2.1]; simp only [decide_eq_true_eq]; omega
      · rw [h.2.2.2.2.1, hstep.2.2.2.2.1]; simp only [decide_eq_true_eq]; omega
      · rw [h.2.2.2.2.2.1, hstep.2.2.2.2.2.1]; omega
      · intro x
        rw [h.2.2.2.2.2.2 x, hstep.2.2.2.2.2.2, mem_addUnique, List.mem_cons]
        tauto

theorem issueFold_spec (l : List Issue) :
    ∀ m₀ : IssueMetrics,
      (l.foldl issueStep m₀).totalCreated = m₀.totalCreated ∧
      (l.foldl issueStep m₀).closedCount =
        m₀.closedCount + l.countP (fun i => decide (i.state = "closed")) ∧
      (l.foldl issueStep m₀).openedCount =
        m₀.openedCount + l.countP (fun i => !decide (i.state = "closed")) ∧
      (∀ x : Int, x ∈ (l.foldl issueStep m₀).projectsWithIssues ↔
        x ∈ m₀.projectsWithIssues ∨ x ∈ l.map Issue.project_id) := by
  induction l with
  | nil => intro m₀; simp
  | cons i rest ih =>
      intro m₀
      have h := ih (issueStep m₀ i)
      simp only [List.foldl_cons, List.countP_cons, List.map_cons]
      by_cases hc : i.state = "closed"
      · refine ⟨?_, ?_, ?_, ?_⟩
        · rw [h.1]; simp [issueStep, hc]
        · rw [h.2.1]; simp [issueStep, hc]; omega
        · rw [h.2.2.1]; simp [issueStep, hc]
        · intro x
          rw [h.2.2.2 x, List.mem_cons]
          simp only [issueStep, hc, if_pos]
          rw [mem_addUnique]
          tauto
      · refine ⟨?_, ?_, ?_, ?_⟩
        · rw [h.1]; simp [issueStep, hc]
        · rw [h.2.1]; simp [issueStep, hc]
        · rw [h.2.2.1]; simp [issueStep, hc]; omega
        · intro x
          rw [h.2.2.2 x, List.mem_cons]
          simp only [issueStep, hc, if_neg, not_false_iff]
          rw [mem_addUnique]
          tauto

/-- Counterexample to C5 as stated: an issue whose state is neither
`"closed"` nor `"opened"` is not left out of the three lifecycle buckets —
`analyzeIssues` counts it in `openedCount` (its `else` branch catches every
non-closed state). -/
theorem analyzeIssues_claim_C5_counterexample :
    (analyzeIssues [⟨"locked", 1⟩]).openedCount ≠ 0 := by
  decide

/-- Claim C5 (amended): `analyzeMergeRequests` classifies each item into
exactly one of `mergedCount` / `openedCount` / `closedCount` by its state,
leaving items with any other state out of the three buckets while still
counting them in `totalCreated` and `projectsWithMRs`; `analyzeIssues`,
however, has only two buckets and counts every non-`closed` item
(including states like `merged`) in `openedCount`, while also keeping
`totalCreated` and `projectsWithIssues` over all items. -/
theorem workItemBuckets_claim_C5 (mrs : List MergeRequest) (issues : List Issue) :
    (analyzeMergeRequests mrs).mergedCount =
      mrs.countP (fun mr => decide (mr.state = "merged")) ∧
    (analyzeMergeRequests mrs).openedCount =
      mrs.countP (fun mr => decide (mr.state = "opened")) ∧
    (analyzeMergeRequests mrs).closedCount =
      mrs.countP (fun mr => decide (mr.state = "closed")) ∧
    (analyzeMergeRequests mrs).totalCreated = mrs.length ∧
    (∀ x : Int, x ∈ (analyzeMergeRequests mrs).projectsWithMRs ↔
      x ∈ mrs.map MergeRequest.project_id) ∧
    (analyzeIssues issues).closedCount =
      issues.countP (fun i => decide (i.state = "closed")) ∧
    (analyzeIssues issues).openedCount =
      issues.countP (fun i => !decide (i.state = "closed")) ∧
    (analyzeIssues issues).totalCreated = issues.length ∧
    (∀ x : Int, x ∈ (analyzeIssues issues).projectsWithIssues ↔
      x ∈ issues.map Issue.project_id) := by
  have hmr := mrFold_spec mrs ⟨mrs.length, 0, 0, 0, 0, 0, 0, []⟩
  have hi := issueFold_spec issues ⟨issues.length, 0, 0, 0, []⟩
  simp only [analyzeMergeRequests, analyzeIssues]
  split_ifs with hpos
  · exact ⟨by simpa using hmr.2.2.1, by simpa using hmr.2.2.2.1,
      by simpa using hmr.2.2.2.2.1, by simpa using hmr.1,
      fun x => by simpa using hmr.2.2.2.2.2.2 x,
      by simpa using hi.2.1, by simpa using hi.2.2.1, by simpa using hi.1,
      fun x => by simpa using hi.2.2.2 x⟩
  · exact ⟨by simpa using hmr.2.2.1, by simpa using hmr.2.2.2.1,
      by simpa using hmr.2.2.2.2.1, by simpa using hmr.1,
      fun x => by simpa using hmr.2.2.2.2.2.2 x,
      by simpa using hi.2.1, by simpa using hi.2.2.1, by simpa using hi.1,
      fun x => by simpa using hi.2.2.2 x⟩

/-- Counterexample to C2 as stated: two merged MRs, one with both
timestamps (duration `2`) and one with neither.  The claimed average over
items actually contributing a measured duration would be `2 / 1 = 2`, but
the code divides by `mergedCount`, giving `2 / 2 = 1`. -/
theorem analyzeMergeRequests_claim_C2_counterexample :
    (analyzeMergeRequests
      [⟨"merged", some 0, some 2, 1⟩, ⟨"merged", none, none, 2⟩]).averageTimeToMerge
      = 1 ∧
    (analyzeMergeRequests
      [⟨"merged", some 0, some 2, 1⟩, ⟨"merged", none, none, 2⟩]).averageTimeToMerge
      ≠ 2 := by
  constructor <;> simp [analyzeMergeRequests, mrStep, addUnique]

/-- Claim C2 (amended): whenever at least one item is merged,
`averageTimeToMerge` equals the sum of `merged_at - created_at` over the
merged items carrying both timestamps, divided by `mergedCount` (the count
of all merged items, whether or not they contributed a duration). -/
theorem analyzeMergeRequests_claim_C2 (mrs : List MergeRequest)
    (h : 0 < mrs.countP (fun mr => decide (mr.state = "merged"))) :
    (analyzeMergeRequests mrs).averageTimeToMerge =
      (measuredMergeTime mrs : Rat) /
        (mrs.countP (fun mr => decide (mr.state = "merged")) : Rat) := by
  have hmr := mrFold_spec mrs ⟨mrs.length, 0, 0, 0, 0, 0, 0, []⟩
  simp only [analyzeMergeRequests]
  split_ifs with hpos
  · have h1 : (mrs.foldl mrStep ⟨mrs.length, 0, 0, 0, 0, 0, 0, []⟩).totalTimeToMerge =
        measuredMergeTime mrs := by simpa using hmr.2.2.2.2.2.1
    have h2 : (mrs.foldl mrStep ⟨mrs.length, 0, 0, 0, 0, 0, 0, []⟩).mergedCount =
        mrs.countP (fun mr => decide (mr.state = "merged")) := by simpa using hmr.2.2.1
    simp [h1, h2]
  · exact absurd (by simpa [hmr.2.2.1] using h) hpos

/-- Witness for C2 at the spec's own example: two merged MRs with measured
durations `2` and `4` average to `3`. -/
theorem analyzeMergeRequests_claim_C2_witness :
    0 < List.countP (fun mr => decide (mr.state = "merged"))
        [(⟨"merged", some 0, some 2, 1⟩ : MergeRequest), ⟨"merged", some 0, some 4, 1⟩] ∧
    (analyzeMergeRequests
        [⟨"merged", some 0, some 2, 1⟩,
         ⟨"merged", some 0, some 4, 1⟩]).averageTimeToMerge = 3 := by
  refine ⟨by decide, ?_⟩
  rw [analyzeMergeRequests_claim_C2 _ (by decide)]
  have h1 : measuredMergeTime
      [(⟨"merged", some 0, some 2, 1⟩ : MergeRequest), ⟨"merged", some 0, some 4, 1⟩] = 6 := by
    decide
  have h2 : List.countP (fun mr => decide (mr.state = "merged"))
      [(⟨"merged", some 0, some 2, 1⟩ : MergeRequest), ⟨"merged", some 0, some 4, 1⟩] = 2 := by
    decide
  rw [h1, h2]
  norm_num

/-! ### Time-pattern analyzer lemmas -/

theorem tpFold_counts (locale : Int → String) (events : List GLEvent) :
    ∀ m₀ : TimeMetrics,
      (∀ k, getCount ((events.foldl (tpStep locale) m₀).hourlyActivity) k =
        getCount m₀.hourlyActivity k +
          events.countP (fun e => decide (jsHourKey e.created_at = k))) ∧
      (∀ k, getCount ((events.foldl (tpStep locale) m₀).dailyActivity) k =
        getCount m₀.dailyActivity k +
          events.countP (fun e => decide (jsDayKey e.created_at = k))) ∧
      (∀ k, getCount ((events.foldl (tpStep locale) m₀).weeklyActivity) k =
        getCount m₀.weeklyActivity k +
          events.countP (fun e => decide (jsWeekKey e.created_at = k))) ∧
      (∀ k, getCount ((events.foldl (tpStep locale) m₀).monthlyActivity) k =
        getCount m₀.monthlyActivity k +
          events.countP (fun e => decide (jsMonthKey locale e.created_at = k))) ∧
      totalCount ((events.foldl (tpStep locale) m₀).hourlyActivity) =
        totalCount m₀.hourlyActivity + events.length ∧
      totalCount ((events.foldl (tpStep locale) m₀).dailyActivity) =
        totalCount m₀.dailyActivity + events.length ∧
      totalCount ((events.foldl (tpStep locale) m₀).weeklyActivity) =
        totalCount m₀.weeklyActivity + events.length ∧
      totalCount ((events.foldl (tpStep locale) m₀).monthlyActivity) =
        totalCount m₀.monthlyActivity + events.length := by
  induction events with
  | nil => intro m₀; simp
  | cons e rest ih =>
      intro m₀
      have h := ih (tpStep locale m₀ e)
      simp only [List.foldl_cons, List.countP_cons, List.length_cons]
      refine ⟨?_, ?_, ?_, ?_, ?_, ?_, ?_, ?_⟩
      · intro k
        rw [h.1 k]
        simp only [tpStep, getCount_bump, decide_eq_true_eq]
        omega
      · intro k
        rw [h.2.1 k]
        simp only [tpStep, getCount_bump, decide_eq_true_eq]
        omega
      · intro k
        rw [h.2.2.1 k]
        simp only [tpStep, getCount_bump, decide_eq_true_eq]
        omega
      · intro k
        rw [h.2.2.2.1 k]
        simp only [tpStep, getCount_bump, decide_eq_true_eq]
        omega
      · rw [h.2.2.2.2.1]; simp only [tpStep, totalCount_bump]; omega
      · rw [h.2.2.2.2.2.1]; simp only [tpStep, totalCount_bump]; omega
      · rw [h.2.2.2.2.2.2.1]; simp only [tpStep, totalCount_bump]; omega
      · rw [h.2.2.2.2.2.2.2]; simp only [tpStep, totalCount_bump]; omega

theorem ghTpFold_counts (locale : Int → String) (events : List GHEvent) :
    ∀ m₀ : TimeMetrics,
      (∀ k, getCount ((events.foldl (ghTpStep locale) m₀).hourlyActivity) k =
        getCount m₀.hourlyActivity k +
          events.countP (fun e =>
            !decide (e.created_at = JSTimestamp.absent) &&
            decide (jsHourKey e.created_at = k))) ∧
      (∀ k, getCount ((events.foldl (ghTpStep locale) m₀).monthlyActivity) k =
        getCount m₀.monthlyActivity k +
          events.countP (fun e =>
            !decide (e.created_at = JSTimestamp.absent) &&
            decide (jsMonthKey locale e.created_at = k))) ∧
      totalCount ((events.foldl (ghTpStep locale) m₀).hourlyActivity) =
        totalCount m₀.hourlyActivity +
          events.countP (fun e => !decide (e.created_at = JSTimestamp.absent)) ∧
      totalCount ((events.foldl (ghTpStep locale) m₀).dailyActivity) =
        totalCount m₀.dailyActivity +
          events.countP (fun e => !decide (e.created_at = JSTimestamp.absent)) ∧
      totalCount ((events.foldl (ghTpStep locale) m₀).weeklyActivity) =
        totalCount m₀.weeklyActivity +
          events.countP (fun e => !decide (e.created_at = JSTimestamp.absent)) ∧
      totalCount ((events.foldl (ghTpStep locale) m₀).monthlyActivity) =
        totalCount m₀.monthlyActivity +
          events.countP (fun e => !decide (e.created_at = JSTimestamp.absent)) := by
  induction events with
  | nil => intro m₀; simp
  | cons e rest ih =>
      intro m₀
      have h := ih (ghTpStep locale m₀ e)
      simp only [List.foldl_cons, List.countP_cons]
      cases hts : e.created_at with
      | absent =>
          refine ⟨?_, ?_, ?_, ?_, ?_, ?_⟩ <;>
            first
            | (intro k
               rw [(ih (ghTpStep locale m₀ e)).1 k]
               simp [ghTpStep, hts])
            | skip
          · intro k
            rw [h.2.1 k]
            simp [ghTpStep, hts]
          · rw [h.2.2.1]; simp [ghTpStep, hts]
          · rw [h.2.2.2.1]; simp [ghTpStep, hts]
          · rw [h.2.2.2.2.1]; simp [ghTpStep, hts]
          · rw [h.2.2.2.2.2]; simp [ghTpStep, hts]
      | invalid =>
          refine ⟨?_, ?_, ?_, ?_, ?_, ?_⟩
          · intro k
            rw [h.1 k]
            simp only [ghTpStep, hts, getCount_bump, decide_eq_true_eq]
            simp
            omega
          · intro k
            rw [h.2.1 k]
            simp only [ghTpStep, hts, getCount_bump, decide_eq_true_eq]
            simp
            omega
          · rw [h.2.2.1]; simp only [ghTpStep, hts, totalCount_bump]; simp; omega
          · rw [h.2.2.2.1]; simp only [ghTpStep, hts, totalCount_bump]; simp; omega
          · rw [h.2.2.2.2.1]; simp only [ghTpStep, hts, totalCount_bump]; simp; omega
          · rw [h.2.2.2.2.2]; simp only [ghTpStep, hts, totalCount_bump]; simp; omega
      | valid dt =>
          refine ⟨?_, ?_, ?_, ?_, ?_, ?_⟩
          · intro k
            rw [h.1 k]
            simp only [ghTpStep, hts, getCount_bump, decide_eq_true_eq]
            simp
            omega
          · intro k
            rw [h.2.1 k]
            simp only [ghTpStep, hts, getCount_bump, decide_eq_true_eq]
            simp
            omega
          · rw [h.2.2.1]; simp only [ghTpStep, hts, totalCount_bump]; simp; omega
          · rw [h.2.2.2.1]; simp only [ghTpStep, hts, totalCount_bump]; simp; omega
          · rw [h.2.2.2.2.1]; simp only [ghTpStep, hts, totalCount_bump]; simp; omega
          · rw [h.2.2.2.2.2]; simp only [ghTpStep, hts, totalCount_bump]; simp; omega

/-- Counterexample to C4 as stated: an event whose timestamp is present but
unparseable is not skipped by `analyzeTimePatterns` — it increments the
`"NaN"` bucket (modelled `none`) of `hourlyActivity` (and of the other
three mappings), so it does contribute to a bucket. -/
theorem analyzeTimePatterns_claim_C4_counterexample :
    (analyzeTimePatterns englishMonthName
        [⟨"pushed to", none, JSTimestamp.invalid⟩]).hourlyActivity = [(none, 1)] ∧
    (analyzeTimePatterns englishMonthName
        [⟨"pushed to", none, JSTimestamp.invalid⟩]).hourlyActivity ≠ [] := by
  decide

/-- Claim C4 (amended): every event increments exactly one bucket in each
of the four mappings of `analyzeTimePatterns` — a parseable timestamp under
its hour / day-of-week / week / month keys, an unparseable (or absent)
timestamp under the invalid `NaN` / `"Invalid Date"` keys — and no
exception is thrown; `analyzeGitHubTimePatterns` skips events with an
absent timestamp entirely, but a present-yet-unparseable timestamp is
still bucketed under the invalid keys. -/
theorem timePatterns_claim_C4 (locale : Int → String)
    (events : List GLEvent) (ghEvents : List GHEvent) :
    totalCount (analyzeTimePatterns locale events).hourlyActivity = events.length ∧
    totalCount (analyzeTimePatterns locale events).dailyActivity = events.length ∧
    totalCount (analyzeTimePatterns locale events).weeklyActivity = events.length ∧
    totalCount (analyzeTimePatterns locale events).monthlyActivity = events.length ∧
    (∀ k, getCount (analyzeTimePatterns locale events).hourlyActivity k =
      events.countP (fun e => decide (jsHourKey e.created_at = k))) ∧
    (∀ k, getCount (analyzeTimePatterns locale events).dailyActivity k =
      events.countP (fun e => decide (jsDayKey e.created_at = k))) ∧
    (∀ k, getCount (analyzeTimePatterns locale events).weeklyActivity k =
      events.countP (fun e => decide (jsWeekKey e.created_at = k))) ∧
    (∀ k, getCount (analyzeTimePatterns locale events).monthlyActivity k =
      events.countP (fun e => decide (jsMonthKey locale e.created_at = k))) ∧
    totalCount (analyzeGitHubTimePatterns locale ghEvents).hourlyActivity =
      ghEvents.countP (fun e => !decide (e.created_at = JSTimestamp.absent)) ∧
    (∀ k, getCount (analyzeGitHubTimePatterns locale ghEvents).hourlyActivity k =
      ghEvents.countP (fun e =>
        !decide (e.created_at = JSTimestamp.absent) &&
        decide (jsHourKey e.created_at = k))) := by
  have h := tpFold_counts locale events ⟨[], [], [], []⟩
  have hg := ghTpFold_counts locale ghEvents ⟨[], [], [], []⟩
  simp only [analyzeTimePatterns, analyzeGitHubTimePatterns]
  refine ⟨by simpa [totalCount] using h.2.2.2.2.1,
    by simpa [totalCount] using h.2.2.2.2.2.1,
    by simpa [totalCount] using h.2.2.2.2.2.2.1,
    by simpa [totalCount] using h.2.2.2.2.2.2.2,
    fun k => by simpa [getCount] using h.1 k,
    fun k => by simpa [getCount] using h.2.1 k,
    fun k => by simpa [getCount] using h.2.2.1 k,
    fun k => by simpa [getCount] using h.2.2.2.1 k,
    by simpa [totalCount] using hg.2.2.1,
    fun k => by simpa [getCount] using hg.1 k⟩

/-- Counterexample to C9 as stated: the month key is produced by
`toLocaleString('default', …)`, so the same event analyzed under an
English ambient locale and under a French ambient locale yields different
`monthlyActivity` keys (`"January"` vs `"janvier"`). -/
theorem monthLocale_claim_C9_counterexample :
    (analyzeTimePatterns englishMonthName
        [⟨"pushed to", none, JSTimestamp.valid ⟨2025, 1, 15, 9⟩⟩]).monthlyActivity ≠
    (analyzeTimePatterns frenchMonthName
        [⟨"pushed to", none, JSTimestamp.valid ⟨2025, 1, 15, 9⟩⟩]).monthlyActivity := by
  decide

/-- Claim C9 (amended): the month-name grouping key is whatever the
ambient `'default'` locale's formatter returns, so the analyzers are
deterministic only relative to that ambient table: two runs whose ambient
locales agree on every month name produce identical outputs (and under an
English ambient locale the keys are the English month names), but locales
that differ can produce different keys. -/
theorem monthLocale_claim_C9 (loc₁ loc₂ : Int → String)
    (h : ∀ m : Int, loc₁ m = loc₂ m)
    (allowed : List String) (resolver : Int → String)
    (events : List GLEvent) (ghEvents : List GHEvent) (commits : Nat) :
    analyzeTimePatterns loc₁ events = analyzeTimePatterns loc₂ events ∧
    analyzeEvents allowed resolver loc₁ events = analyzeEvents allowed resolver loc₂ events ∧
    analyzeGitHubEvents loc₁ ghEvents commits = analyzeGitHubEvents loc₂ ghEvents commits ∧
    analyzeGitHubTimePatterns loc₁ ghEvents = analyzeGitHubTimePatterns loc₂ ghEvents := by
  have he : loc₁ = loc₂ := funext h
  subst he
  exact ⟨rfl, rfl, rfl, rfl⟩

/-- Witness for C9 applied at two runs sharing the English ambient
locale. -/
theorem monthLocale_claim_C9_witness :
    analyzeTimePatterns englishMonthName
        [⟨"pushed to", none, JSTimestamp.valid ⟨2025, 1, 15, 9⟩⟩] =
      analyzeTimePatterns englishMonthName
        [⟨"pushed to", none, JSTimestamp.valid ⟨2025, 1, 15, 9⟩⟩] :=
  (monthLocale_claim_C9 englishMonthName englishMonthName (fun _ => rfl)
    [] (fun _ => "Unknown Project")
    [⟨"pushed to", none, JSTimestamp.valid ⟨2025, 1, 15, 9⟩⟩] [] 0).1

/-! ### Event aggregator lemmas -/

theorem lookupName_mem (m : List (Int × String)) (k : Int) (n : String) :
    lookupName m k = some n → (k, n) ∈ m := by
  induction m with
  | nil => intro h; simp [lookupName] at h
  | cons a rest ih =>
      obtain ⟨k₀, n₀⟩ := a
      simp only [lookupName]
      split_ifs with h
      · intro he
        simp_all [List.mem_cons]
      · intro he
        exact List.mem_cons_of_mem _ (ih he)

theorem retainedEv_of_ne (allowed : List String) (resolver : Int → String)
    (e : GLEvent) (hne : allowed ≠ []) :
    retainedEv allowed resolver e = isAllowedName allowed (resolveName resolver e) := by
  simp [retainedEv, hne]

theorem evStep_fields (allowed : List String) (resolver locale : Int → String)
    (st : EvState) (e : GLEvent)
    (hm : ∀ p ∈ st.projectNamesMap, p.2 = resolver p.1) :
    (∀ p ∈ (evStep allowed resolver locale st e).projectNamesMap, p.2 = resolver p.1) ∧
    (evStep allowed resolver locale st e).eventTypeCounts =
      bump st.eventTypeCounts e.action_name ∧
    (retainedEv allowed resolver e = true →
      (evStep allowed resolver locale st e).projectActivity =
        bump st.projectActivity (resolveName resolver e) ∧
      (evStep allowed resolver locale st e).monthlyActivity =
        bump st.monthlyActivity (jsMonthKey locale e.created_at) ∧
      (evStep allowed resolver locale st e).projectContributions =
        bumpContrib st.projectContributions (resolveName resolver e)
          (strIncludes e.action_name "push")) ∧
    (retainedEv allowed resolver e = false →
      (evStep allowed resolver locale st e).projectActivity = st.projectActivity ∧
      (evStep allowed resolver locale st e).monthlyActivity = st.monthlyActivity ∧
      (evStep allowed resolver locale st e).projectContributions =
        st.projectContributions) := by
  have hsplit : ∀ name : String,
      (allowed ≠ [] ∧ ¬ isAllowedName allowed name = true) ↔
        (decide (allowed = []) || isAllowedName allowed name) = false := by
    intro name
    constructor
    · rintro ⟨h1, h2⟩
      simp [h1, Bool.eq_false_iff.mpr h2]
    · intro h
      rcases Bool.or_eq_false_iff.mp h with ⟨ha, hb⟩
      exact ⟨by simpa using ha, by simp [hb]⟩
  rcases he : e.project_id with _ | pid
  · have hres : resolveName resolver e = "Unknown Project" := by
      simp [resolveName, he]
    have hret : retainedEv allowed resolver e =
        (decide (allowed = []) || isAllowedName allowed "Unknown Project") := by
      simp [retainedEv, hres]
    simp only [evStep, he]
    split_ifs with hc
    · have hrf : retainedEv allowed resolver e = false := by
        rw [hret]; exact (hsplit "Unknown Project").mp hc
      exact ⟨hm, rfl, by simp [hrf],
        fun _ => ⟨rfl, rfl, rfl⟩⟩
    · have hrt : retainedEv allowed resolver e = true := by
        rw [hret]
        by_contra hb
        exact hc ((hsplit "Unknown Project").mpr (Bool.eq_false_iff.mpr hb))
      exact ⟨hm, rfl, fun _ => ⟨by rw [hres], rfl, by rw [hres]⟩,
        by simp [hrt]⟩
  · by_cases hp : pid = 0
    · have hres : resolveName resolver e = "Unknown Project" := by
        simp [resolveName, he, hp]
      have hret : retainedEv allowed resolver e =
          (decide (allowed = []) || isAllowedName allowed "Unknown Project") := by
        simp [retainedEv, hres]
      simp only [evStep, he, hp, if_pos, if_true]
      split_ifs with hc
      · have hrf : retainedEv allowed resolver e = false := by
          rw [hret]; exact (hsplit "Unknown Project").mp hc
        exact ⟨hm, rfl, by simp [hrf],
          fun _ => ⟨rfl, rfl, rfl⟩⟩
      · have hrt : retainedEv allowed resolver e = true := by
          rw [hret]
          by_contra hb
          exact hc ((hsplit "Unknown Project").mpr (Bool.eq_false_iff.mpr hb))
        exact ⟨hm, rfl, fun _ => ⟨by rw [hres], rfl, by rw [hres]⟩,
          by simp [hrt]⟩
    · have hres : resolveName resolver e = resolver pid := by
        simp [resolveName, he, hp]
      rcases hl : lookupName st.projectNamesMap pid with _ | n
      · have hret : retainedEv allowed resolver e =
            (decide (allowed = []) || isAllowedName allowed (resolver pid)) := by
          simp [retainedEv, hres]
        have hmap : ∀ p ∈ st.projectNamesMap ++ [(pid, resolver pid)],
            p.2 = resolver p.1 := by
          intro p hp2
          rcases List.mem_append.mp hp2 with h1 | h2
          · exact hm p h1
          · simp at h2
            subst h2
            rfl
        simp only [evStep, he, hl, if_neg hp]
        split_ifs with hc
        · have hrf : retainedEv allowed resolver e = false := by
            rw [hret]; exact (hsplit (resolver pid)).mp hc
          exact ⟨hmap, rfl, by simp [hrf],
            fun _ => ⟨rfl, rfl, rfl⟩⟩
        · have hrt : retainedEv allowed resolver e = true := by
            rw [hret]
            by_contra hb
            exact hc ((hsplit (resolver pid)).mpr (Bool.eq_false_iff.mpr hb))
          exact ⟨hmap, rfl, fun _ => ⟨by rw [hres], rfl, by rw [hres]⟩,
            by simp [hrt]⟩
      · have hn : n = resolver pid := hm (pid, n) (lookupName_mem _ _ _ hl)
        have hret : retainedEv allowed resolver e =
            (decide (allowed = []) || isAllowedName allowed n) := by
          simp [retainedEv, hres, hn]
        simp only [evStep, he, hl, if_neg hp]
        split_ifs with hc
        · have hrf : retainedEv allowed resolver e = false := by
            rw [hret]; exact (hsplit n).mp hc
          exact ⟨hm, rfl, by simp [hrf],
            fun _ => ⟨rfl, rfl, rfl⟩⟩
        · have hrt : retainedEv allowed resolver e = true := by
            rw [hret]
            by_contra hb
            exact hc ((hsplit n).mpr (Bool.eq_false_iff.mpr hb))
          exact ⟨hm, rfl,
            fun _ => ⟨by rw [hres, ← hn], rfl, by rw [hres, ← hn]⟩,
            by simp [hrt]⟩

theorem evFold_counts (allowed : List String) (resolver locale : Int → String)
    (events : List GLEvent) :
    ∀ st : EvState, (∀ p ∈ st.projectNamesMap, p.2 = resolver p.1) →
      (∀ t, getCount ((events.foldl (evStep allowed resolver locale) st).eventTypeCounts) t =
        getCount st.eventTypeCounts t +
          events.countP (fun e => decide (e.action_name = t))) ∧
      (∀ p, getCount ((events.foldl (evStep allowed resolver locale) st).projectActivity) p =
        getCount st.projectActivity p +
          events.countP (fun e =>
            retainedEv allowed resolver e && decide (resolveName resolver e = p))) ∧
      (∀ k, getCount ((events.foldl (evStep allowed resolver locale) st).monthlyActivity) k =
        getCount st.monthlyActivity k +
          events.countP (fun e =>
            retainedEv allowed resolver e && decide (jsMonthKey locale e.created_at = k))) ∧
      (∀ p, (getContrib ((events.foldl (evStep allowed resolver locale) st).projectContributions) p).total =
        (getContrib st.projectContributions p).total +
          events.countP (fun e =>
            retainedEv allowed resolver e && decide (resolveName resolver e = p))) ∧
      (∀ p, (getContrib ((events.foldl (evStep allowed resolver locale) st).projectContributions) p).pushEvents =
        (getContrib st.projectContributions p).pushEvents +
          events.countP (fun e =>
            (retainedEv allowed resolver e && decide (resolveName resolver e = p)) &&
              strIncludes e.action_name "push")) ∧
      (∀ p, (getContrib ((events.foldl (evStep allowed resolver locale) st).projectContributions) p).otherEvents =
        (getContrib st.projectContributions p).otherEvents +
          events.countP (fun e =>
            (retainedEv allowed resolver e && decide (resolveName resolver e = p)) &&
              !strIncludes e.action_name "push")) := by
  induction events with
  | nil => intro st hm; simp
  | cons e rest ih =>
      intro st hm
      have hstep := evStep_fields allowed resolver locale st e hm
      have h := ih (evStep allowed resolver locale st e) hstep.1
      simp only [List.foldl_cons, List.countP_cons]
      by_cases hr : retainedEv allowed resolver e = true
      · obtain ⟨hpa, hma, hpc⟩ := hstep.2.2.1 hr
        refine ⟨?_, ?_, ?_, ?_, ?_, ?_⟩
        · intro t
          rw [h.1 t, hstep.2.1, getCount_bump]
          simp only [decide_eq_true_eq]
          omega
        · intro p
          rw [h.2.1 p, hpa, getCount_bump]
          simp only [hr, Bool.true_and, decide_eq_true_eq]
          omega
        · intro k
          rw [h.2.2.1 k, hma, getCount_bump]
          simp only [hr, Bool.true_and, decide_eq_true_eq]
          omega
        · intro p
          rw [h.2.2.2.1 p, hpc, getContrib_bumpContrib]
          simp only [hr, Bool.true_and, decide_eq_true_eq]
          by_cases hX : resolveName resolver e = p <;> simp [hX] <;> omega
        · intro p
          rw [h.2.2.2.2.1 p, hpc, getContrib_bumpContrib]
          simp only [hr, Bool.true_and, decide_eq_true_eq]
          by_cases hX : resolveName resolver e = p <;>
            by_cases hY : strIncludes e.action_name "push" = true <;>
            simp [hX, hY] <;> omega
        · intro p
          rw [h.2.2.2.2.2 p, hpc, getContrib_bumpContrib]
          simp only [hr, Bool.true_and, decide_eq_true_eq]
          by_cases hX : resolveName resolver e = p <;>
            by_cases hY : strIncludes e.action_name "push" = true <;>
            simp [hX, hY] <;> omega
      · have hrf : retainedEv allowed resolver e = false := Bool.eq_false_iff.mpr hr
        obtain ⟨hpa, hma, hpc⟩ := hstep.2.2.2 hrf
        refine ⟨?_, ?_, ?_, ?_, ?_, ?_⟩
        · intro t
          rw [h.1 t, hstep.2.1, getCount_bump]
          simp only [decide_eq_true_eq]
          omega
        · intro p
          rw [h.2.1 p, hpa]
          simp [hrf]
        · intro k
          rw [h.2.2.1 k, hma]
          simp [hrf]
        · intro p
          rw [h.2.2.2.1 p, hpc]
          simp [hrf]
        · intro p
          rw [h.2.2.2.2.1 p, hpc]
          simp [hrf]
        · intro p
          rw [h.2.2.2.2.2 p, hpc]
          simp [hrf]

theorem lookupName_append (m l : List (Int × String)) (k : Int) :
    lookupName (m ++ l) k =
      match lookupName m k with
      | some n => some n
      | none => lookupName l k := by
  induction m with
  | nil => simp [lookupName]
  | cons a rest ih =>
      obtain ⟨k₀, n₀⟩ := a
      simp only [List.cons_append, lookupName]
      split_ifs with h <;> simp [ih]

theorem evStep_calls (allowed : List String) (resolver locale : Int → String)
    (st : EvState) (e : GLEvent)
    (hnd : st.resolverCalls.Nodup)
    (hin : ∀ pid ∈ st.resolverCalls,
      (lookupName st.projectNamesMap pid).isSome = true) :
    (evStep allowed resolver locale st e).resolverCalls.Nodup ∧
    ∀ pid ∈ (evStep allowed resolver locale st e).resolverCalls,
      (lookupName (evStep allowed resolver locale st e).projectNamesMap pid).isSome = true := by
  rcases he : e.project_id with _ | pid
  · simp only [evStep, he]
    split_ifs <;> exact ⟨hnd, hin⟩
  · by_cases hp : pid = 0
    · simp only [evStep, he, hp, if_pos, if_true]
      split_ifs <;> exact ⟨hnd, hin⟩
    · rcases hl : lookupName st.projectNamesMap pid with _ | n
      · have hpid : pid ∉ st.resolverCalls := by
          intro hmem
          have := hin pid hmem
          rw [hl] at this
          simp at this
        have hnd2 : (st.resolverCalls ++ [pid]).Nodup :=
          (List.perm_append_singleton pid st.resolverCalls).nodup_iff.mpr
            (List.nodup_cons.mpr ⟨hpid, hnd⟩)
        have hin2 : ∀ q ∈ st.resolverCalls ++ [pid],
            (lookupName (st.projectNamesMap ++ [(pid, resolver pid)]) q).isSome = true := by
          intro q hq
          rw [lookupName_append]
          rcases List.mem_append.mp hq with h1 | h2
          · rcases hlq : lookupName st.projectNamesMap q with _ | m
            · exact absurd (hin q h1) (by simp [hlq])
            · simp
          · simp only [List.mem_singleton] at h2
            subst h2
            rw [hl]
            simp [lookupName]
        simp only [evStep, he, hl, if_neg hp]
        split_ifs <;> exact ⟨hnd2, hin2⟩
      · simp only [evStep, he, hl, if_neg hp]
        split_ifs <;> exact ⟨hnd, hin⟩

theorem evFold_calls (allowed : List String) (resolver locale : Int → String)
    (events : List GLEvent) :
    ∀ st : EvState, st.resolverCalls.Nodup →
      (∀ pid ∈ st.resolverCalls,
        (lookupName st.projectNamesMap pid).isSome = true) →
      (events.foldl (evStep allowed resolver locale) st).resolverCalls.Nodup := by
  induction events with
  | nil => intro st hnd _; exact hnd
  | cons e rest ih =>
      intro st hnd hin
      have hs := evStep_calls allowed resolver locale st e hnd hin
      exact ih _ hs.1 hs.2

/-- Claim C7: within a single run of `analyzeEvents`, the external
`getProjectNameById` resolver is called at most once per distinct
`project_id` — repeated occurrences are answered from the per-run
memoization map. -/
theorem analyzeEvents_claim_C7 (allowed : List String) (resolver locale : Int → String)
    (events : List GLEvent) (pid : Int) :
    ((analyzeEventsRun allowed resolver locale events).resolverCalls).count pid ≤ 1 := by
  have h := evFold_calls allowed resolver locale events ⟨[], [], [], [], [], []⟩
    (by simp) (by simp)
  exact List.nodup_iff_count_le_one.mp h pid

theorem ghStep_fields (locale : Int → String) (st : GHState) (e : GHEvent) :
    (ghRepoName e = none →
      (ghStep locale st e).repoActivity = st.repoActivity ∧
      (ghStep locale st e).contributions = st.contributions) ∧
    (∀ name, ghRepoName e = some name →
      (ghStep locale st e).repoActivity = bump st.repoActivity name ∧
      (ghStep locale st e).contributions =
        bumpContrib st.contributions name (decide (e.type = "PushEvent"))) := by
  constructor
  · intro hrn
    rcases hrep : e.repo with _ | n
    · rcases hts : e.created_at <;> simp [ghStep, hrep, hts]
    · have hn : n = "" := by
        by_contra hne
        simp [ghRepoName, hrep, hne] at hrn
      rcases hts : e.created_at <;> simp [ghStep, hrep, hts, hn]
  · intro name hrn
    rcases hrep : e.repo with _ | n
    · simp [ghRepoName, hrep] at hrn
    · by_cases hne : n = ""
      · simp [ghRepoName, hrep, hne] at hrn
      · obtain rfl : n = name := by simpa [ghRepoName, hrep, hne] using hrn
        rcases hts : e.created_at <;> simp [ghStep, hrep, hts, hne]

theorem ghFold_contrib (locale : Int → String) (events : List GHEvent) :
    ∀ st : GHState,
      (∀ r, getCount ((events.foldl (ghStep locale) st).repoActivity) r =
        getCount st.repoActivity r +
          events.countP (fun e => decide (ghRepoName e = some r))) ∧
      (∀ r, (getContrib ((events.foldl (ghStep locale) st).contributions) r).total =
        (getContrib st.contributions r).total +
          events.countP (fun e => decide (ghRepoName e = some r))) ∧
      (∀ r, (getContrib ((events.foldl (ghStep locale) st).contributions) r).pushEvents =
        (getContrib st.contributions r).pushEvents +
          events.countP (fun e =>
            decide (ghRepoName e = some r) && decide (e.type = "PushEvent"))) ∧
      (∀ r, (getContrib ((events.foldl (ghStep locale) st).contributions) r).otherEvents =
        (getContrib st.contributions r).otherEvents +
          events.countP (fun e =>
            decide (ghRepoName e = some r) && !decide (e.type = "PushEvent"))) := by
  induction events with
  | nil => intro st; simp
  | cons e rest ih =>
      intro st
      have hstep := ghStep_fields locale st e
      have h := ih (ghStep locale st e)
      simp only [List.foldl_cons, List.countP_cons]
      rcases hrn : ghRepoName e with _ | name
      · obtain ⟨hra, hc⟩ := hstep.1 hrn
        refine ⟨?_, ?_, ?_, ?_⟩
        · intro r; rw [h.1 r, hra]; simp [hrn]
        · intro r; rw [h.2.1 r, hc]; simp [hrn]
        · intro r; rw [h.2.2.1 r, hc]; simp [hrn]
        · intro r; rw [h.2.2.2 r, hc]; simp [hrn]
      · obtain ⟨hra, hc⟩ := hstep.2 name hrn
        refine ⟨?_, ?_, ?_, ?_⟩
        · intro r
          rw [h.1 r, hra, getCount_bump]
          simp only [hrn, Option.some.injEq, decide_eq_true_eq]
          omega
        · intro r
          rw [h.2.1 r, hc, getContrib_bumpContrib]
          simp only [hrn, Option.some.injEq, decide_eq_true_eq]
          by_cases hX : name = r <;> simp [hX] <;> omega
        · intro r
          rw [h.2.2.1 r, hc, getContrib_bumpContrib]
          simp only [hrn, Option.some.injEq, decide_eq_true_eq]
          by_cases hX : name = r <;>
            by_cases hY : e.type = "PushEvent" <;> simp [hX, hY] <;> omega
        · intro r
          rw [h.2.2.2 r, hc, getContrib_bumpContrib]
          simp only [hrn, Option.some.injEq, decide_eq_true_eq]
          by_cases hX : name = r <;>
            by_cases hY : e.type = "PushEvent" <;> simp [hX, hY] <;> omega

theorem analyzeEvents_eventTypeCounts (allowed : List String)
    (resolver locale : Int → String) (events : List GLEvent) (t : String) :
    getCount (analyzeEvents allowed resolver locale events).eventTypeCounts t =
      events.countP (fun e => decide (e.action_name = t)) := by
  have h := (evFold_counts allowed resolver locale events
    ⟨[], [], [], [], [], []⟩ (by simp)).1 t
  simpa [analyzeEvents, analyzeEventsRun, getCount] using h

theorem analyzeEvents_projectActivity (allowed : List String)
    (resolver locale : Int → String) (events : List GLEvent) (p : String) :
    getCount (analyzeEvents allowed resolver locale events).projectActivity p =
      events.countP (fun e =>
        retainedEv allowed resolver e && decide (resolveName resolver e = p)) := by
  have h := (evFold_counts allowed resolver locale events
    ⟨[], [], [], [], [], []⟩ (by simp)).2.1 p
  simpa [analyzeEvents, analyzeEventsRun, getCount] using h

theorem analyzeEvents_monthlyActivity (allowed : List String)
    (resolver locale : Int → String) (events : List GLEvent) (k : String) :
    getCount (analyzeEvents allowed resolver locale events).monthlyActivity k =
      events.countP (fun e =>
        retainedEv allowed resolver e && decide (jsMonthKey locale e.created_at = k)) := by
  have h := (evFold_counts allowed resolver locale events
    ⟨[], [], [], [], [], []⟩ (by simp)).2.2.1 k
  simpa [analyzeEvents, analyzeEventsRun, getCount] using h

theorem analyzeEvents_contribTotal (allowed : List String)
    (resolver locale : Int → String) (events : List GLEvent) (p : String) :
    (getContrib (analyzeEvents allowed resolver locale events).projectContributions p).total =
      events.countP (fun e =>
        retainedEv allowed resolver e && decide (resolveName resolver e = p)) := by
  have h := (evFold_counts allowed resolver locale events
    ⟨[], [], [], [], [], []⟩ (by simp)).2.2.2.1 p
  simpa [analyzeEvents, analyzeEventsRun, getContrib] using h

theorem analyzeEvents_contribPush (allowed : List String)
    (resolver locale : Int → String) (events : List GLEvent) (p : String) :
    (getContrib (analyzeEvents allowed resolver locale events).projectContributions p).pushEvents =
      events.countP (fun e =>
        (retainedEv allowed resolver e && decide (resolveName resolver e = p)) &&
          strIncludes e.action_name "push") := by
  have h := (evFold_counts allowed resolver locale events
    ⟨[], [], [], [], [], []⟩ (by simp)).2.2.2.2.1 p
  simpa [analyzeEvents, analyzeEventsRun, getContrib] using h

theorem analyzeEvents_contribOther (allowed : List String)
    (resolver locale : Int → String) (events : List GLEvent) (p : String) :
    (getContrib (analyzeEvents allowed resolver locale events).projectContributions p).otherEvents =
      events.countP (fun e =>
        (retainedEv allowed resolver e && decide (resolveName resolver e = p)) &&
          !strIncludes e.action_name "push") := by
  have h := (evFold_counts allowed resolver locale events
    ⟨[], [], [], [], [], []⟩ (by simp)).2.2.2.2.2 p
  simpa [analyzeEvents, analyzeEventsRun, getContrib] using h

theorem analyzeGitHubEvents_repoActivity (locale : Int → String)
    (ghEvents : List GHEvent) (commits : Nat) (r : String) :
    getCount (analyzeGitHubEvents locale ghEvents commits).repoActivity r =
      ghEvents.countP (fun e => decide (ghRepoName e = some r)) := by
  have h := (ghFold_contrib locale ghEvents ⟨[], [], [], []⟩).1 r
  simpa [analyzeGitHubEvents, getCount] using h

theorem analyzeGitHubEvents_contribTotal (locale : Int → String)
    (ghEvents : List GHEvent) (commits : Nat) (r : String) :
    (getContrib (analyzeGitHubEvents locale ghEvents commits).contributions r).total =
      ghEvents.countP (fun e => decide (ghRepoName e = some r)) := by
  have h := (ghFold_contrib locale ghEvents ⟨[], [], [], []⟩).2.1 r
  simpa [analyzeGitHubEvents, getContrib] using h

theorem analyzeGitHubEvents_contribPush (locale : Int → String)
    (ghEvents : List GHEvent) (commits : Nat) (r : String) :
    (getContrib (analyzeGitHubEvents locale ghEvents commits).contributions r).pushEvents =
      ghEvents.countP (fun e =>
        decide (ghRepoName e = some r) && decide (e.type = "PushEvent")) := by
  have h := (ghFold_contrib locale ghEvents ⟨[], [], [], []⟩).2.2.1 r
  simpa [analyzeGitHubEvents, getContrib] using h

theorem analyzeGitHubEvents_contribOther (locale : Int → String)
    (ghEvents : List GHEvent) (commits : Nat) (r : String) :
    (getContrib (analyzeGitHubEvents locale ghEvents commits).contributions r).otherEvents =
      ghEvents.countP (fun e =>
        decide (ghRepoName e = some r) && !decide (e.type = "PushEvent")) := by
  have h := (ghFold_contrib locale ghEvents ⟨[], [], [], []⟩).2.2.2 r
  simpa [analyzeGitHubEvents, getContrib] using h

/-- Counterexample to C3 as stated: with allow-list `["alpha"]` and a
single event resolving to `"beta"` (which fails the bidirectional
substring test and is filtered from the project counters), the event still
contributes to `eventTypeCounts` — bumped before the filter runs — and to
`totalEvents`, the raw input length. -/
theorem analyzeEvents_claim_C3_counterexample :
    (analyzeEvents ["alpha"] (fun _ => "beta") englishMonthName
        [⟨"pushed to", some 1, JSTimestamp.valid ⟨2025, 1, 15, 9⟩⟩]).totalEvents = 1 ∧
    getCount (analyzeEvents ["alpha"] (fun _ => "beta") englishMonthName
        [⟨"pushed to", some 1, JSTimestamp.valid ⟨2025, 1, 15, 9⟩⟩]).eventTypeCounts
      "pushed to" = 1 ∧
    getCount (analyzeEvents ["alpha"] (fun _ => "beta") englishMonthName
        [⟨"pushed to", some 1, JSTimestamp.valid ⟨2025, 1, 15, 9⟩⟩]).projectActivity
      "beta" = 0 := by
  decide

/-- Claim C3 (amended): with a non-empty allow-list, an event is retained
for the project-level counters only if its resolved name passes the
case-insensitive bidirectional substring test; a failing event contributes
to none of `projectActivity`, `monthlyActivity` or `projectContributions`,
but it still contributes to `eventTypeCounts` (bumped before the filter)
and to `totalEvents` (the raw input length). -/
theorem analyzeEvents_claim_C3 (allowed : List String) (resolver locale : Int → String)
    (events : List GLEvent) (hne : allowed ≠ []) :
    (analyzeEvents allowed resolver locale events).totalEvents = events.length ∧
    (∀ t, getCount (analyzeEvents allowed resolver locale events).eventTypeCounts t =
      events.countP (fun e => decide (e.action_name = t))) ∧
    (∀ p, getCount (analyzeEvents allowed resolver locale events).projectActivity p =
      events.countP (fun e =>
        isAllowedName allowed (resolveName resolver e) &&
          decide (resolveName resolver e = p))) ∧
    (∀ k, getCount (analyzeEvents allowed resolver locale events).monthlyActivity k =
      events.countP (fun e =>
        isAllowedName allowed (resolveName resolver e) &&
          decide (jsMonthKey locale e.created_at = k))) ∧
    (∀ p, (getContrib (analyzeEvents allowed resolver locale events).projectContributions p).total =
      events.countP (fun e =>
        isAllowedName allowed (resolveName resolver e) &&
          decide (resolveName resolver e = p))) := by
  have hre : ∀ e : GLEvent, retainedEv allowed resolver e =
      isAllowedName allowed (resolveName resolver e) :=
    fun e => retainedEv_of_ne allowed resolver e hne
  refine ⟨rfl, fun t => analyzeEvents_eventTypeCounts allowed resolver locale events t,
    fun p => ?_, fun k => ?_, fun p => ?_⟩
  · rw [analyzeEvents_projectActivity]
    simp only [hre]
  · rw [analyzeEvents_monthlyActivity]
    simp only [hre]
  · rw [analyzeEvents_contribTotal]
    simp only [hre]

/-- Witness for C3 with allow-list `["alpha"]`: an event resolving to
`"alphabet"` (which contains `"alpha"`) is retained and counted once in
`projectActivity`. -/
theorem analyzeEvents_claim_C3_witness :
    (["alpha"] : List String) ≠ [] ∧
    getCount (analyzeEvents ["alpha"] (fun _ => "alphabet") englishMonthName
        [⟨"pushed to", some 7, JSTimestamp.valid ⟨2025, 2, 3, 10⟩⟩]).projectActivity
      "alphabet" = 1 := by
  refine ⟨by decide, ?_⟩
  have h := (analyzeEvents_claim_C3 ["alpha"] (fun _ => "alphabet") englishMonthName
      [⟨"pushed to", some 7, JSTimestamp.valid ⟨2025, 2, 3, 10⟩⟩] (by decide)).2.2.1
      "alphabet"
  rw [h]
  decide

/-- Claim C8: for any two permutations of the input event array,
`analyzeEvents` produces identical `eventTypeCounts` and `projectActivity`
mappings (read as key-to-count functions). -/
theorem analyzeEvents_claim_C8 (allowed : List String) (resolver locale : Int → String)
    (l₁ l₂ : List GLEvent) (hp : l₁.Perm l₂) :
    (∀ t, getCount (analyzeEvents allowed resolver locale l₁).eventTypeCounts t =
      getCount (analyzeEvents allowed resolver locale l₂).eventTypeCounts t) ∧
    (∀ p, getCount (analyzeEvents allowed resolver locale l₁).projectActivity p =
      getCount (analyzeEvents allowed resolver locale l₂).projectActivity p) := by
  constructor
  · intro t
    rw [analyzeEvents_eventTypeCounts, analyzeEvents_eventTypeCounts, hp.countP_eq]
  · intro p
    rw [analyzeEvents_projectActivity, analyzeEvents_projectActivity, hp.countP_eq]

/-- Witness for C8 at a concrete two-event list and its reversal. -/
theorem analyzeEvents_claim_C8_witness :
    List.Perm
      [(⟨"pushed to", some 1, JSTimestamp.valid ⟨2025, 1, 15, 9⟩⟩ : GLEvent),
       ⟨"opened", some 2, JSTimestamp.valid ⟨2025, 2, 3, 10⟩⟩]
      [⟨"opened", some 2, JSTimestamp.valid ⟨2025, 2, 3, 10⟩⟩,
       ⟨"pushed to", some 1, JSTimestamp.valid ⟨2025, 1, 15, 9⟩⟩] ∧
    getCount (analyzeEvents [] (fun i => if i = 1 then "Alpha" else "Beta") englishMonthName
        [⟨"pushed to", some 1, JSTimestamp.valid ⟨2025, 1, 15, 9⟩⟩,
         ⟨"opened", some 2, JSTimestamp.valid ⟨2025, 2, 3, 10⟩⟩]).projectActivity "Alpha" =
    getCount (analyzeEvents [] (fun i => if i = 1 then "Alpha" else "Beta") englishMonthName
        [⟨"opened", some 2, JSTimestamp.valid ⟨2025, 2, 3, 10⟩⟩,
         ⟨"pushed to", some 1, JSTimestamp.valid ⟨2025, 1, 15, 9⟩⟩]).projectActivity "Alpha" := by
  refine ⟨by decide, ?_⟩
  exact (analyzeEvents_claim_C8 [] (fun i => if i = 1 then "Alpha" else "Beta")
    englishMonthName _ _ (by decide)).2 "Alpha"

/-- Claim C10: for every project name, the contribution record of
`analyzeEvents` satisfies `pushEvents + otherEvents = total` and
`total = projectActivity[p]`; the contributions mapping of
`analyzeGitHubEvents` satisfies the same per-repository sum invariant. -/
theorem contributions_claim_C10 (allowed : List String)
    (resolver locale : Int → String) (events : List GLEvent)
    (ghEvents : List GHEvent) (commits : Nat) :
    (∀ p,
      (getContrib (analyzeEvents allowed resolver locale events).projectContributions p).pushEvents +
        (getContrib (analyzeEvents allowed resolver locale events).projectContributions p).otherEvents =
        (getContrib (analyzeEvents allowed resolver locale events).projectContributions p).total ∧
      (getContrib (analyzeEvents allowed resolver locale events).projectContributions p).total =
        getCount (analyzeEvents allowed resolver locale events).projectActivity p) ∧
    (∀ r,
      (getContrib (analyzeGitHubEvents locale ghEvents commits).contributions r).pushEvents +
        (getContrib (analyzeGitHubEvents locale ghEvents commits).contributions r).otherEvents =
        (getContrib (analyzeGitHubEvents locale ghEvents commits).contributions r).total ∧
      (getContrib (analyzeGitHubEvents locale ghEvents commits).contributions r).total =
        getCount (analyzeGitHubEvents locale ghEvents commits).repoActivity r) := by
  constructor
  · intro p
    constructor
    · rw [analyzeEvents_contribPush, analyzeEvents_contribOther, analyzeEvents_contribTotal]
      exact countP_and_split events _ _
    · rw [analyzeEvents_contribTotal, analyzeEvents_projectActivity]
  · intro r
    constructor
    · rw [analyzeGitHubEvents_contribPush, analyzeGitHubEvents_contribOther,
        analyzeGitHubEvents_contribTotal]
      exact countP_and_split ghEvents _ _
    · rw [analyzeGitHubEvents_contribTotal, analyzeGitHubEvents_repoActivity]
